import Mathlib

/-!
Verification development for the ChromeAutoTabReloader extension.

The JavaScript source is shallowly embedded: `chrome.storage.local` and
`chrome.alarms` are modelled as association lists from string keys to
values, every service function becomes a pure Lean function on explicit
state, and JavaScript numeric/string primitives (`parseInt`, template
literals, `startsWith`, `substring`) are given faithful executable models.
-/

/-! ## JavaScript string and number primitives -/

/-- The character for decimal digit `d` (intended for `d < 10`). -/
def digitChar (d : Nat) : Char := Char.ofNat (48 + d)

/-- Fuel-driven decimal representation of a natural number, most significant
digit first.  Correct whenever the fuel exceeds the number (see lemmas). -/
def natToCharsFuel : Nat → Nat → List Char
  | 0, _ => []
  | f + 1, n =>
    if n < 10 then [digitChar n]
    else natToCharsFuel f (n / 10) ++ [digitChar (n % 10)]

/-- Decimal digit list of a natural number, as produced by JavaScript
number-to-string conversion for naturals. -/
def natToChars (n : Nat) : List Char := natToCharsFuel (n + 1) n

/-- JavaScript template-literal rendering of an integer (decimal, with a
leading minus sign for negative values). -/
def intToString (t : Int) : String :=
  if t < 0 then String.mk ('-' :: natToChars t.natAbs)
  else String.mk (natToChars t.toNat)

/-- The common whitespace characters skipped by JavaScript `parseInt`.
(The full JS whitespace set is larger; only these can matter here since
alarm names and storage keys contain no exotic whitespace.) -/
def jsWhitespace (c : Char) : Bool :=
  c == ' ' || c == '\t' || c == '\n' || c == '\r'

/-- Accumulate the value of the leading run of decimal digits, stopping at
the first non-digit, exactly as `parseInt` consumes its input. -/
def parseNatAcc : List Char → Nat → Nat
  | [], acc => acc
  | c :: rest, acc =>
    if c.isDigit then parseNatAcc rest (10 * acc + (c.toNat - 48)) else acc

/-- Parse a leading run of digits; `none` when the first character is not a
decimal digit (`parseInt` returns `NaN` in that case). -/
def parseNatChars : List Char → Option Nat
  | [] => none
  | c :: rest => if c.isDigit then some (parseNatAcc (c :: rest) 0) else none

/-- Read an optional sign, then the longest digit run; trailing characters
are ignored; `none` models `NaN`. -/
def parseSigned : List Char → Option Int
  | [] => none
  | c :: rest =>
    if c = '-' then (parseNatChars rest).map (fun n => -(n : Int))
    else if c = '+' then (parseNatChars rest).map (fun n => (n : Int))
    else (parseNatChars (c :: rest)).map (fun n => (n : Int))

/-- JavaScript `parseInt(s, 10)` on a character list: skip leading
whitespace, then read an optionally signed digit run. -/
def parseIntChars (cs : List Char) : Option Int :=
  parseSigned (cs.dropWhile jsWhitespace)

/-- JavaScript `parseInt(s, 10)`. -/
def parseIntJS (s : String) : Option Int := parseIntChars s.data

/-- Boolean list-prefix test (JavaScript `String.prototype.startsWith`
restricted to the character level, which coincides for these ASCII keys). -/
def listIsPrefixOf : List Char → List Char → Bool
  | [], _ => true
  | _ :: _, [] => false
  | a :: as, b :: bs => if a = b then listIsPrefixOf as bs else false

/-- JavaScript `s.startsWith(pre)`. -/
def jsStartsWith (s pre : String) : Bool := listIsPrefixOf pre.data s.data

/-- JavaScript `s.substring(n)` (character-level drop). -/
def jsSubstringFrom (s : String) (n : Nat) : String := String.mk (s.data.drop n)

/-! ## Constants (src/shared/constants.js) -/

/-- `ALARM_NAME_PREFIX` from constants.js. -/
def ALARM_NAME_PREFIX : String := "tab-reloader-alarm-"

/-- `OPTIONS_KEY` from constants.js. -/
def OPTIONS_KEY : String := "tab-reloader-options"

/-- The shape of the options record stored by the extension. -/
structure OptionsRecord where
  defaultInterval : Int
  bypassCache : Bool
  showBadge : Bool
deriving DecidableEq, Repr

/-- `DEFAULT_OPTIONS` from constants.js. -/
def DEFAULT_OPTIONS : OptionsRecord :=
  { defaultInterval := 5, bypassCache := true, showBadge := true }

/-- A possibly partial options object (JavaScript objects may omit fields). -/
structure PartialOptions where
  defaultInterval : Option Int
  bypassCache : Option Bool
  showBadge : Option Bool
deriving DecidableEq, Repr

/-- `RESTRICTED_URL_PREFIXES` from constants.js. -/
def RESTRICTED_URL_PREFIXES : List String :=
  ["chrome://", "chrome-extension://", "file://",
   "https://chrome.google.com/webstore", "edge://", "about:"]

/-! ## Generic string-keyed association stores

Both `chrome.storage.local` (a flat key-value document) and the set of
registered `chrome.alarms` (keyed by alarm name) are modelled as
association lists.  All operations are structural, hence executable. -/

/-- Look up the first binding of key `k`. -/
def lookupKV {α : Type} : List (String × α) → String → Option α
  | [], _ => none
  | p :: rest, k => if p.1 = k then some p.2 else lookupKV rest k

/-- Remove every binding of key `k` (`delete obj[k]` / `alarms.clear(k)`). -/
def removeKV {α : Type} : List (String × α) → String → List (String × α)
  | [], _ => []
  | p :: rest, k => if p.1 = k then removeKV rest k else p :: removeKV rest k

/-- Overwrite the binding of `k` in place, or append a fresh binding
(JavaScript object property assignment / `storage.set` of one key). -/
def setKV {α : Type} : List (String × α) → String → α → List (String × α)
  | [], k, v => [(k, v)]
  | p :: rest, k, v => if p.1 = k then (k, v) :: rest else p :: setKV rest k v

/-- Number of bindings of key `k`. -/
def countKV {α : Type} : List (String × α) → String → Nat
  | [], _ => 0
  | p :: rest, k => (if p.1 = k then 1 else 0) + countKV rest k

/-! ## Storage layer (src/services/StorageService.js)

`chrome.storage.local` holds a flat document.  A value under a schedule key
is the object written by `saveInterval` (an `interval` field); the value
under `OPTIONS_KEY` is a (possibly partial) options object; any other value
is opaque. -/

/-- A value stored in the flat `chrome.storage.local` document. -/
inductive StoredValue where
  | entry (interval : Int)
  | opts (o : PartialOptions)
  | other (blob : String)
deriving DecidableEq, Repr

/-- The `chrome.storage.local` document. -/
abbrev Storage := List (String × StoredValue)

/-- `StorageService.getKey(tabId)`. -/
def getKey (tabId : Int) : String := ALARM_NAME_PREFIX ++ intToString tabId

/-- `StorageService.saveInterval(tabId, intervalMinutes)`: unconditionally
writes the entry object under the derived key. -/
def saveInterval (s : Storage) (tabId intervalMinutes : Int) : Storage :=
  setKV s (getKey tabId) (.entry intervalMinutes)

/-- `StorageService.getInterval(tabId)`: the stored interval, or 0 when the
key is absent or carries no interval field. -/
def getInterval (s : Storage) (tabId : Int) : Int :=
  match lookupKV s (getKey tabId) with
  | some (.entry i) => i
  | _ => 0

/-- `StorageService.removeInterval(tabId)`. -/
def removeInterval (s : Storage) (tabId : Int) : Storage :=
  removeKV s (getKey tabId)

/-- One iteration of the `getAllIntervals` loop: keep a pair only when the
key has the schedule-name form and the value has a positive interval. -/
def listedEntry (p : String × StoredValue) : Option (Int × Int) :=
  if jsStartsWith p.1 ALARM_NAME_PREFIX then
    match parseIntJS (jsSubstringFrom p.1 ( ALARM_NAME_PREFIX.length)) with
    | some tabId =>
      match p.2 with
      | .entry i => if 0 < i then some (tabId, i) else none
      | _ => none
    | none => none
  else none

/-- `StorageService.getAllIntervals()`: all schedule pairs with a parseable
key and a positive interval, in document order. -/
def getAllIntervals (s : Storage) : List (Int × Int) := s.filterMap listedEntry

/-- The stored options object, `{}` when absent (`result[key] ?? {}`).
A non-options value under `OPTIONS_KEY` carries none of the three option
fields, so it reads the same as the empty object. -/
def storedOptions (s : Storage) : PartialOptions :=
  match lookupKV s OPTIONS_KEY with
  | some (.opts o) => o
  | _ => { defaultInterval := none, bypassCache := none, showBadge := none }

/-- Spread of a partial object over a full record:
the JavaScript pattern `{ ...base, ...part }`. -/
def spreadOver (base : OptionsRecord) (part : PartialOptions) : OptionsRecord :=
  { defaultInterval := part.defaultInterval.getD base.defaultInterval
    bypassCache := part.bypassCache.getD base.bypassCache
    showBadge := part.showBadge.getD base.showBadge }

/-- `StorageService.getOptions()`: `{ ...DEFAULT_OPTIONS, ...stored }`. -/
def getOptions (s : Storage) : OptionsRecord :=
  spreadOver DEFAULT_OPTIONS (storedOptions s)

/-- A full record viewed as a stored object with every field present. -/
def toStored (o : OptionsRecord) : PartialOptions :=
  { defaultInterval := some o.defaultInterval
    bypassCache := some o.bypassCache
    showBadge := some o.showBadge }

/-- `StorageService.saveOptions(options)`: merge the partial update over the
current (default-filled) record and store the merged full object. -/
def saveOptions (s : Storage) (options : PartialOptions) : Storage :=
  setKV s OPTIONS_KEY (.opts (toStored (spreadOver (getOptions s) options)))

/-- `StorageService.exportAll()`: the whole document
(`chrome.storage.local.get(null)`). -/
def exportAll (s : Storage) : Storage := s

/-- `chrome.storage.local.clear()`. -/
def storageClearAll (_ : Storage) : Storage := []

/-- `chrome.storage.local.set(data)`: assign every binding of `data`. -/
def storageSetAll (s : Storage) (data : Storage) : Storage :=
  data.foldl (fun acc p => setKV acc p.1 p.2) s

/-- `StorageService.importAll(data)`: clear, then set the whole document. -/
def importAll (data : Storage) (s : Storage) : Storage :=
  storageSetAll (storageClearAll s) data

/-! ## Alarm layer (src/services/AlarmService.js)

`chrome.alarms` keeps at most one alarm per name; `create` with an existing
name replaces it, `clear` removes it. -/

/-- The schedule of one `chrome.alarms` alarm. -/
structure AlarmInfo where
  delayInMinutes : Int
  periodInMinutes : Int
deriving DecidableEq, Repr

/-- The set of registered alarms, keyed by name. -/
abbrev Alarms := List (String × AlarmInfo)

/-- `AlarmService.getAlarmName(tabId)`. -/
def getAlarmName (tabId : Int) : String := ALARM_NAME_PREFIX ++ intToString tabId

/-- `AlarmService.parseTabId(alarmName)`: inverse of the naming scheme;
`none` when the prefix is missing or `parseInt` yields `NaN`. -/
def parseTabId (alarmName : String) : Option Int :=
  if jsStartsWith alarmName ALARM_NAME_PREFIX then
    parseIntJS (jsSubstringFrom alarmName ( ALARM_NAME_PREFIX.length))
  else none

/-- `chrome.alarms.create(name, info)`: replaces any alarm with that name. -/
def alarmsCreate (A : Alarms) (name : String) (info : AlarmInfo) : Alarms :=
  removeKV A name ++ [(name, info)]

/-- `AlarmService.schedule(tabId, intervalMinutes)`: always clear first,
then create a recurring alarm only when the interval is positive. -/
def scheduleAlarm (A : Alarms) (tabId intervalMinutes : Int) : Alarms :=
  let name := getAlarmName tabId
  let cleared := removeKV A name
  if 0 < intervalMinutes then
    alarmsCreate cleared name
      { delayInMinutes := intervalMinutes, periodInMinutes := intervalMinutes }
  else cleared

/-- `AlarmService.clear(tabId)`: returns whether an alarm existed, and the
registry with that name removed. -/
def clearAlarm (A : Alarms) (tabId : Int) : Bool × Alarms :=
  ((lookupKV A (getAlarmName tabId)).isSome, removeKV A (getAlarmName tabId))

/-! ## Tab layer (src/services/TabService.js) -/

/-- `TabService.isRestrictedUrl(url)`: a falsy (empty) url is restricted,
otherwise restricted iff some fixed prefix matches. -/
def isRestrictedUrl (url : String) : Bool :=
  if url = "" then true
  else RESTRICTED_URL_PREFIXES.any (fun p => jsStartsWith url p)

/-! ## Background service worker (src/background.js) -/

/-- The state the background worker mutates: the durable store and the live
alarm registry.  (Badge text is presentation-only and not modelled.) -/
structure SysState where
  storage : Storage
  alarms : Alarms
deriving DecidableEq, Repr

/-- Response of the `setTimer` handler. -/
structure SetTimerResponse where
  success : Bool
  error : Option String
deriving DecidableEq, Repr

/-- Response of the `getTimer` handler. -/
structure GetTimerResponse where
  success : Bool
  interval : Option Int
  error : Option String
deriving DecidableEq, Repr

/-- JavaScript truthiness test failure for a possibly-absent integer:
`!x` is true exactly when the value is absent (undefined/null) or 0. -/
def jsFalsyInt : Option Int → Bool
  | none => true
  | some n => n == 0

/-- `handleSetTimer`: validation (`!tabId || typeof interval === 'undefined'`),
then `saveInterval`, then `AlarmService.schedule`. -/
def handleSetTimer (st : SysState) (tabId interval : Option Int) :
    SetTimerResponse × SysState :=
  match tabId, interval with
  | some t, some i =>
    if t = 0 then ({ success := false, error := some "Missing tabId or interval" }, st)
    else ({ success := true, error := none },
          { storage := saveInterval st.storage t i,
            alarms := scheduleAlarm st.alarms t i })
  | _, _ => ({ success := false, error := some "Missing tabId or interval" }, st)

/-- `handleGetTimer`: validation (`!tabId`), then a pure storage read. -/
def handleGetTimer (st : SysState) (tabId : Option Int) :
    GetTimerResponse × SysState :=
  match tabId with
  | some t =>
    if t = 0 then ({ success := false, interval := none, error := some "Missing tabId" }, st)
    else ({ success := true, interval := some (getInterval st.storage t), error := none }, st)
  | none => ({ success := false, interval := none, error := some "Missing tabId" }, st)

/-- A sequence of `setTimer` requests applied in order. -/
def applySetTimers (reqs : List (Option Int × Option Int)) (st : SysState) : SysState :=
  reqs.foldl (fun s r => (handleSetTimer s r.1 r.2).2) st

/-- One iteration of the `restoreAlarmsFromStorage` loop body. -/
def reconcileStep (openIds : List Int) (s : SysState) (e : Int × Int) : SysState :=
  if openIds.contains e.1 ∧ 0 < e.2 then
    { s with alarms := scheduleAlarm s.alarms e.1 e.2 }
  else
    { s with storage := removeInterval s.storage e.1 }

/-- `restoreAlarmsFromStorage`: read the listed entries and the open-tab
set once, then re-arm or prune each entry. -/
def restoreAlarmsFromStorage (openIds : List Int) (st : SysState) : SysState :=
  (getAllIntervals st.storage).foldl (reconcileStep openIds) st

/-- The alarm-registry effect of the reconciliation loop in isolation. -/
def armStep (openIds : List Int) (A : Alarms) (e : Int × Int) : Alarms :=
  if openIds.contains e.1 ∧ 0 < e.2 then scheduleAlarm A e.1 e.2 else A

/-- The storage effect of the reconciliation loop in isolation. -/
def pruneStep (openIds : List Int) (S : Storage) (e : Int × Int) : Storage :=
  if openIds.contains e.1 ∧ 0 < e.2 then S else removeInterval S e.1

/-- The reconciliation loop under a failure oracle for `schedule` calls.
The try/catch in `restoreAlarmsFromStorage` wraps the whole loop, so the
first exception ends the pass: the current state is returned unchanged and
the remaining entries are not visited (the error is only logged). -/
def restoreGo (openIds : List Int) (fails : Int → Bool) :
    List (Int × Int) → SysState → SysState
  | [], s => s
  | e :: rest, s =>
    if openIds.contains e.1 ∧ 0 < e.2 then
      if fails e.1 then s
      else restoreGo openIds fails rest
        { s with alarms := scheduleAlarm s.alarms e.1 e.2 }
    else restoreGo openIds fails rest
      { s with storage := removeInterval s.storage e.1 }

/-- `restoreAlarmsFromStorage` when individual `schedule` calls may throw. -/
def restoreWithFailures (openIds : List Int) (fails : Int → Bool)
    (st : SysState) : SysState :=
  restoreGo openIds fails (getAllIntervals st.storage) st

/-- The `chrome.alarms.onAlarm` listener: parse the tab id from the alarm
name (ignoring foreign alarms); when the reload invocation throws, clear the
alarm and remove the schedule entry. -/
def onAlarmFired (st : SysState) (alarmName : String) (reloadFails : Bool) : SysState :=
  match parseTabId alarmName with
  | none => st
  | some tabId =>
    if reloadFails then
      { storage := removeInterval st.storage tabId,
        alarms := (clearAlarm st.alarms tabId).2 }
    else st

/-- An operation on the Timer Registry (claim C4's operation alphabet). -/
inductive TimerOp where
  | schedule (tabId intervalMinutes : Int)
  | cancel (tabId : Int)

/-- Apply one registry operation. -/
def applyTimerOp (A : Alarms) : TimerOp → Alarms
  | .schedule t i => scheduleAlarm A t i
  | .cancel t => (clearAlarm A t).2

/-! ## Association-store lemmas -/

theorem lookupKV_removeKV_self {α : Type} (l : List (String × α)) (k : String) :
    lookupKV (removeKV l k) k = none := by
  induction l with
  | nil => rfl
  | cons p rest ih =>
    by_cases h : p.1 = k
    · simp [removeKV, h, ih]
    · simp [removeKV, lookupKV, h, ih]

theorem lookupKV_removeKV_other {α : Type} (l : List (String × α)) (k k2 : String)
    (hne : k ≠ k2) : lookupKV (removeKV l k2) k = lookupKV l k := by
  have hne2 : k2 ≠ k := Ne.symm hne
  induction l with
  | nil => rfl
  | cons p rest ih =>
    by_cases h : p.1 = k2
    · have hpk : p.1 ≠ k := fun hk => hne (hk ▸ h)
      simp [removeKV, lookupKV, h, hpk, hne2, ih]
    · by_cases h2 : p.1 = k
      · simp [removeKV, lookupKV, h, h2, hne, hne2, ih]
      · simp [removeKV, lookupKV, h, h2, ih]

theorem lookupKV_removeKV_none {α : Type} (l : List (String × α)) (k k2 : String)
    (h : lookupKV l k = none) : lookupKV (removeKV l k2) k = none := by
  by_cases he : k = k2
  · subst he; exact lookupKV_removeKV_self l k
  · rw [lookupKV_removeKV_other l k k2 he]; exact h

theorem lookupKV_setKV_self {α : Type} (l : List (String × α)) (k : String) (v : α) :
    lookupKV (setKV l k v) k = some v := by
  induction l with
  | nil => simp [setKV, lookupKV]
  | cons p rest ih =>
    by_cases h : p.1 = k
    · simp [setKV, lookupKV, h]
    · simp [setKV, lookupKV, h, ih]

theorem lookupKV_setKV_other {α : Type} (l : List (String × α)) (k k2 : String) (v : α)
    (hne : k ≠ k2) : lookupKV (setKV l k2 v) k = lookupKV l k := by
  have hne2 : k2 ≠ k := Ne.symm hne
  induction l with
  | nil => simp [setKV, lookupKV, hne2]
  | cons p rest ih =>
    by_cases h : p.1 = k2
    · have hpk : p.1 ≠ k := fun hk => hne (hk ▸ h)
      simp [setKV, lookupKV, h, hpk, hne2]
    · by_cases h2 : p.1 = k
      · simp [setKV, lookupKV, h, h2, hne, hne2, ih]
      · simp [setKV, lookupKV, h, h2, ih]

theorem lookupKV_append {α : Type} (l l2 : List (String × α)) (k : String) :
    lookupKV (l ++ l2) k =
      (match lookupKV l k with
       | some v => some v
       | none => lookupKV l2 k) := by
  induction l with
  | nil => simp [lookupKV]
  | cons p rest ih =>
    by_cases h : p.1 = k
    · simp [lookupKV, h]
    · simp [lookupKV, h, ih]

theorem lookupKV_eq_none_of_not_mem_keys {α : Type} (l : List (String × α)) (k : String)
    (h : k ∉ l.map Prod.fst) : lookupKV l k = none := by
  induction l with
  | nil => rfl
  | cons p rest ih =>
    simp only [List.map_cons, List.mem_cons] at h
    push_neg at h
    have h1 : p.1 ≠ k := fun hk => h.1 hk.symm
    simp [lookupKV, h1, ih h.2]

theorem mem_of_lookupKV_eq_some {α : Type} (l : List (String × α)) (k : String) (v : α)
    (h : lookupKV l k = some v) : (k, v) ∈ l := by
  induction l with
  | nil => simp [lookupKV] at h
  | cons p rest ih =>
    by_cases hp : p.1 = k
    · simp only [lookupKV, if_pos hp] at h
      have hv : p.2 = v := by injection h
      have hpe : p = (k, v) := by
        cases p
        simp only at hp hv
        rw [hp, hv]
      rw [hpe]
      exact List.mem_cons_self _ _
    · simp only [lookupKV, if_neg hp] at h
      exact List.mem_cons_of_mem _ (ih h)

theorem lookupKV_eq_some_of_mem {α : Type} (l : List (String × α)) (k : String) (v : α)
    (hmem : (k, v) ∈ l) (hnd : (l.map Prod.fst).Nodup) : lookupKV l k = some v := by
  induction l with
  | nil => simp at hmem
  | cons p rest ih =>
    simp only [List.map_cons, List.nodup_cons] at hnd
    rcases List.mem_cons.mp hmem with h | h
    · rw [← h]; simp [lookupKV]
    · have hk : k ∈ rest.map Prod.fst :=
        List.mem_map.mpr ⟨(k, v), h, rfl⟩
      have hp : p.1 ≠ k := fun he => hnd.1 (he ▸ hk)
      simp [lookupKV, hp, ih h hnd.2]

theorem setKV_of_lookup_none {α : Type} (l : List (String × α)) (k : String) (v : α)
    (h : lookupKV l k = none) : setKV l k v = l ++ [(k, v)] := by
  induction l with
  | nil => rfl
  | cons p rest ih =>
    by_cases hp : p.1 = k
    · simp [lookupKV, hp] at h
    · simp only [lookupKV, if_neg hp] at h
      simp [setKV, hp, ih h]

theorem countKV_removeKV_self {α : Type} (l : List (String × α)) (k : String) :
    countKV (removeKV l k) k = 0 := by
  induction l with
  | nil => rfl
  | cons p rest ih =>
    by_cases h : p.1 = k
    · simp [removeKV, h, ih]
    · simp [removeKV, countKV, h, ih]

theorem countKV_removeKV_other {α : Type} (l : List (String × α)) (k k2 : String)
    (hne : k ≠ k2) : countKV (removeKV l k2) k = countKV l k := by
  have hne2 : k2 ≠ k := Ne.symm hne
  induction l with
  | nil => rfl
  | cons p rest ih =>
    by_cases h : p.1 = k2
    · have hpk : p.1 ≠ k := fun hk => hne (hk ▸ h)
      simp [removeKV, countKV, h, hpk, hne2, ih]
    · simp [removeKV, countKV, h, ih]

theorem countKV_append {α : Type} (l l2 : List (String × α)) (k : String) :
    countKV (l ++ l2) k = countKV l k + countKV l2 k := by
  induction l with
  | nil => simp [countKV]
  | cons p rest ih =>
    simp [countKV, ih]
    omega

/-! ## Decimal representation and `parseInt` round trip -/

theorem strData_append (a b : String) : (a ++ b).data = a.data ++ b.data := by
  cases a; cases b; rfl

theorem strMk_data (s : String) : String.mk s.data = s := by
  cases s; rfl

theorem listIsPrefixOf_append (p r : List Char) : listIsPrefixOf p (p ++ r) = true := by
  induction p with
  | nil => rfl
  | cons a as ih => simp [listIsPrefixOf, ih]

theorem digitChar_facts (d : Nat) (h : d < 10) :
    (digitChar d).isDigit = true ∧ (digitChar d).toNat = 48 + d ∧
    jsWhitespace (digitChar d) = false ∧ digitChar d ≠ '-' ∧ digitChar d ≠ '+' := by
  interval_cases d <;> exact ⟨by decide, by decide, by decide, by decide, by decide⟩

theorem natToCharsFuel_facts (f : Nat) : ∀ n : Nat, n < f →
    natToCharsFuel f n ≠ [] ∧ ∀ c ∈ natToCharsFuel f n, c.isDigit = true := by
  induction f with
  | zero => intro n h; exact absurd h (Nat.not_lt_zero n)
  | succ f ih =>
    intro n h
    by_cases h10 : n < 10
    · refine ⟨by simp [natToCharsFuel, h10], ?_⟩
      intro c hc
      simp [natToCharsFuel, h10] at hc
      rw [hc]
      exact (digitChar_facts n h10).1
    · have hdiv : n / 10 < f := by
        have hlt := Nat.div_lt_self (by omega : 0 < n) (by omega : 1 < 10)
        omega
      obtain ⟨hne, hdig⟩ := ih (n / 10) hdiv
      refine ⟨by simp [natToCharsFuel, h10], ?_⟩
      intro c hc
      simp only [natToCharsFuel, if_neg h10, List.mem_append, List.mem_singleton] at hc
      rcases hc with hc | hc
      · exact hdig c hc
      · rw [hc]
        exact (digitChar_facts (n % 10) (Nat.mod_lt n (by omega))).1

theorem parseNatAcc_append (l1 l2 : List Char) (acc : Nat)
    (h : ∀ c ∈ l1, c.isDigit = true) :
    parseNatAcc (l1 ++ l2) acc = parseNatAcc l2 (parseNatAcc l1 acc) := by
  induction l1 generalizing acc with
  | nil => rfl
  | cons c rest ih =>
    have hc : c.isDigit = true := h c (List.mem_cons_self c rest)
    have hrest : ∀ c2 ∈ rest, c2.isDigit = true :=
      fun c2 hc2 => h c2 (List.mem_cons_of_mem c hc2)
    simp [parseNatAcc, hc, ih _ hrest]

theorem parseNatAcc_natToCharsFuel (f : Nat) : ∀ n acc : Nat, n < f →
    parseNatAcc (natToCharsFuel f n) acc =
      acc * 10 ^ (natToCharsFuel f n).length + n := by
  induction f with
  | zero => intro n acc h; exact absurd h (Nat.not_lt_zero n)
  | succ f ih =>
    intro n acc h
    by_cases h10 : n < 10
    · have hd := digitChar_facts n h10
      have hsingle : parseNatAcc [digitChar n] acc =
          10 * acc + ((digitChar n).toNat - 48) := by
        simp [parseNatAcc, hd.1]
      simp only [natToCharsFuel, if_pos h10, hsingle, hd.2.1,
        List.length_singleton, pow_one]
      omega
    · have hdiv : n / 10 < f := by
        have hlt := Nat.div_lt_self (by omega : 0 < n) (by omega : 1 < 10)
        omega
      have hdig := (natToCharsFuel_facts f (n / 10) hdiv).2
      have hmod := digitChar_facts (n % 10) (Nat.mod_lt n (by omega))
      have hsingle : ∀ a : Nat, parseNatAcc [digitChar (n % 10)] a =
          10 * a + ((digitChar (n % 10)).toNat - 48) := by
        intro a; simp [parseNatAcc, hmod.1]
      simp only [natToCharsFuel, if_neg h10]
      rw [parseNatAcc_append _ _ _ hdig, ih (n / 10) acc hdiv, hsingle, hmod.2.1]
      simp only [List.length_append, List.length_singleton]
      rw [pow_succ, ← Nat.mul_assoc]
      have hdm := Nat.div_add_mod n 10
      generalize acc * 10 ^ (natToCharsFuel f (n / 10)).length = M
      omega

theorem parseNatChars_natToChars (n : Nat) : parseNatChars (natToChars n) = some n := by
  have h := natToCharsFuel_facts (n + 1) n (Nat.lt_succ_self n)
  have hval := parseNatAcc_natToCharsFuel (n + 1) n 0 (Nat.lt_succ_self n)
  rw [Nat.zero_mul, Nat.zero_add] at hval
  unfold natToChars
  cases hl : natToCharsFuel (n + 1) n with
  | nil => exact absurd hl h.1
  | cons c rest =>
    have hcd : c.isDigit = true := h.2 c (by rw [hl]; exact List.mem_cons_self c rest)
    rw [hl] at hval
    simp [parseNatChars, hcd, hval]

theorem isDigit_props (c : Char) (h : c.isDigit = true) :
    c ≠ '-' ∧ c ≠ '+' ∧ jsWhitespace c = false := by
  refine ⟨?_, ?_, ?_⟩
  · intro he; subst he; exact absurd h (by decide)
  · intro he; subst he; exact absurd h (by decide)
  · have h1 : c ≠ ' ' := by intro he; subst he; exact absurd h (by decide)
    have h2 : c ≠ '\t' := by intro he; subst he; exact absurd h (by decide)
    have h3 : c ≠ '\n' := by intro he; subst he; exact absurd h (by decide)
    have h4 : c ≠ '\r' := by intro he; subst he; exact absurd h (by decide)
    simp [jsWhitespace, h1, h2, h3, h4]

theorem dropWhile_ws_cons (c : Char) (l : List Char) (h : jsWhitespace c = false) :
    (c :: l).dropWhile jsWhitespace = c :: l := by
  simp [List.dropWhile, h]

theorem parseIntChars_intToString (t : Int) :
    parseIntChars (intToString t).data = some t := by
  by_cases ht : t < 0
  · have hd : (intToString t).data = '-' :: natToChars t.natAbs := by
      simp [intToString, ht]
    rw [parseIntChars, hd, dropWhile_ws_cons _ _ (by decide)]
    simp only [parseSigned, if_pos rfl, parseNatChars_natToChars, Option.map_some']
    show some (-((t.natAbs : Nat) : Int)) = some t
    refine congrArg some ?_
    omega
  · have hd : (intToString t).data = natToCharsFuel (t.toNat + 1) t.toNat := by
      simp [intToString, ht, natToChars]
    have h := natToCharsFuel_facts (t.toNat + 1) t.toNat (Nat.lt_succ_self _)
    have hval := parseNatChars_natToChars t.toNat
    unfold natToChars at hval
    rw [parseIntChars, hd]
    cases hl : natToCharsFuel (t.toNat + 1) t.toNat with
    | nil => exact absurd hl h.1
    | cons c rest =>
      have hcd : c.isDigit = true := h.2 c (by rw [hl]; exact List.mem_cons_self c rest)
      have hp := isDigit_props c hcd
      rw [hl] at hval
      rw [dropWhile_ws_cons _ _ hp.2.2]
      simp [parseSigned, hp.1, hp.2.1, hval]
      omega

theorem strLength_eq_data (s : String) : s.length = s.data.length := rfl

theorem jsStartsWith_getAlarmName (t : Int) :
    jsStartsWith (getAlarmName t) ALARM_NAME_PREFIX = true := by
  unfold jsStartsWith getAlarmName
  rw [strData_append]
  exact listIsPrefixOf_append _ _

theorem jsSubstringFrom_getAlarmName (t : Int) :
    jsSubstringFrom (getAlarmName t) ( ALARM_NAME_PREFIX.length) = intToString t := by
  unfold jsSubstringFrom getAlarmName
  rw [strData_append, strLength_eq_data, List.drop_left]

theorem parseIntJS_intToString (t : Int) : parseIntJS (intToString t) = some t :=
  parseIntChars_intToString t

theorem parseTabId_getAlarmName (t : Int) : parseTabId (getAlarmName t) = some t := by
  unfold parseTabId
  rw [jsStartsWith_getAlarmName t]
  rw [if_pos rfl, jsSubstringFrom_getAlarmName t]
  exact parseIntJS_intToString t

theorem getAlarmName_injective {t u : Int} (h : getAlarmName t = getAlarmName u) :
    t = u := by
  have ht := parseTabId_getAlarmName t
  rw [h, parseTabId_getAlarmName u] at ht
  injection ht with hh
  exact hh.symm

theorem getKey_eq_getAlarmName : getKey = getAlarmName := rfl

/-! ## Properties of the interval listing -/

theorem listedEntry_getKey (t i : Int) :
    listedEntry (getKey t, StoredValue.entry i) =
      (if 0 < i then some (t, i) else none) := by
  unfold listedEntry
  rw [getKey_eq_getAlarmName] at *
  simp only [jsStartsWith_getAlarmName t, if_pos rfl, jsSubstringFrom_getAlarmName t,
    parseIntJS_intToString t]
  simp

theorem listedEntry_some (p : String × StoredValue) (e : Int × Int)
    (h : listedEntry p = some e) :
    jsStartsWith p.1 ALARM_NAME_PREFIX = true ∧
    parseIntJS (jsSubstringFrom p.1 ( ALARM_NAME_PREFIX.length)) = some e.1 ∧
    p.2 = StoredValue.entry e.2 ∧ 0 < e.2 := by
  by_cases hpre : jsStartsWith p.1 ALARM_NAME_PREFIX = true
  · cases hp : parseIntJS (jsSubstringFrom p.1 ( ALARM_NAME_PREFIX.length)) with
    | none => simp [listedEntry, hpre, hp] at h
    | some tabId =>
      cases hv : p.2 with
      | entry i =>
        simp only [listedEntry, hpre, if_pos rfl, hp, hv] at h
        by_cases hpos : 0 < i
        · rw [if_pos hpos] at h
          injection h with he
          subst he
          exact ⟨hpre, rfl, rfl, hpos⟩
        · rw [if_neg hpos] at h
          exact absurd h (by simp)
      | opts o => simp [listedEntry, hpre, hp, hv] at h
      | other b => simp [listedEntry, hpre, hp, hv] at h
  · have hfalse : jsStartsWith p.1 ALARM_NAME_PREFIX = false := by
      revert hpre; cases jsStartsWith p.1 ALARM_NAME_PREFIX <;> simp
    simp [listedEntry, hfalse] at h

theorem mem_getAllIntervals (s : Storage) (e : Int × Int) :
    e ∈ getAllIntervals s ↔ ∃ p, p ∈ s ∧ listedEntry p = some e := by
  unfold getAllIntervals
  exact List.mem_filterMap

theorem getAllIntervals_pos (s : Storage) (e : Int × Int)
    (h : e ∈ getAllIntervals s) : 0 < e.2 := by
  obtain ⟨p, _, hp⟩ := (mem_getAllIntervals s e).mp h
  exact (listedEntry_some p e hp).2.2.2

/-- Canonical-key hypothesis: every key that carries the schedule-name
form is the canonical key of some tab id.  True of every store reachable
through `StorageService`, whose schedule writes all go through `getKey`. -/
def CanonicalKeys (s : Storage) : Prop :=
  ∀ p, p ∈ s → jsStartsWith p.1 ALARM_NAME_PREFIX = true → ∃ u : Int, p.1 = getKey u

theorem listedEntry_canonical (s : Storage) (hca : CanonicalKeys s)
    (p : String × StoredValue) (hp : p ∈ s) (e : Int × Int)
    (h : listedEntry p = some e) :
    p.1 = getKey e.1 ∧ p.2 = StoredValue.entry e.2 := by
  obtain ⟨hpre, hparse, hval, _⟩ := listedEntry_some p e h
  obtain ⟨u, hu⟩ := hca p hp hpre
  rw [hu, getKey_eq_getAlarmName, jsSubstringFrom_getAlarmName u,
    parseIntJS_intToString u] at hparse
  injection hparse with he
  rw [hu, he]
  exact ⟨rfl, hval⟩

theorem getAllIntervals_lookup (s : Storage) (hnd : (s.map Prod.fst).Nodup)
    (hca : CanonicalKeys s) (e : Int × Int) (h : e ∈ getAllIntervals s) :
    lookupKV s (getKey e.1) = some (StoredValue.entry e.2) := by
  obtain ⟨p, hmem, hp⟩ := (mem_getAllIntervals s e).mp h
  obtain ⟨hk, hv⟩ := listedEntry_canonical s hca p hmem e hp
  have : (getKey e.1, StoredValue.entry e.2) ∈ s := by
    have hpe : p = (getKey e.1, StoredValue.entry e.2) := by
      cases p
      simp only at hk hv
      rw [hk, hv]
    rw [← hpe]
    exact hmem
  exact lookupKV_eq_some_of_mem s _ _ this hnd

theorem getAllIntervals_tabIds_nodup (s : Storage) (hnd : (s.map Prod.fst).Nodup)
    (hca : CanonicalKeys s) : ((getAllIntervals s).map Prod.fst).Nodup := by
  induction s with
  | nil => simp [getAllIntervals]
  | cons p rest ih =>
    have hndr : (rest.map Prod.fst).Nodup := by
      simp only [List.map_cons, List.nodup_cons] at hnd
      exact hnd.2
    have hcar : CanonicalKeys rest :=
      fun q hq hpre => hca q (List.mem_cons_of_mem p hq) hpre
    have hih := ih hndr hcar
    unfold getAllIntervals at *
    rw [List.filterMap_cons]
    cases hle : listedEntry p with
    | none => exact hih
    | some e =>
      simp only [List.map_cons, List.nodup_cons]
      refine ⟨?_, hih⟩
      intro hmem
      obtain ⟨e2, hab, hfst⟩ := List.mem_map.mp hmem
      obtain ⟨q, hq, hlq⟩ := List.mem_filterMap.mp hab
      have hpk : p.1 = getKey e.1 :=
        (listedEntry_canonical (p :: rest) hca p (List.mem_cons_self p rest) e hle).1
      have hqk : q.1 = getKey e2.1 :=
        (listedEntry_canonical (p :: rest) hca q (List.mem_cons_of_mem p hq) e2 hlq).1
      have hkey : q.1 = p.1 := by
        rw [hpk, hqk, hfst]
      have hqmem : q.1 ∈ rest.map Prod.fst := List.mem_map.mpr ⟨q, hq, rfl⟩
      simp only [List.map_cons, List.nodup_cons] at hnd
      exact hnd.1 (hkey ▸ hqmem)

/-! ## Alarm-registry lemmas -/

theorem scheduleAlarm_lookup_self (A : Alarms) (t i : Int) (h : 0 < i) :
    lookupKV (scheduleAlarm A t i) (getAlarmName t) =
      some { delayInMinutes := i, periodInMinutes := i } := by
  unfold scheduleAlarm alarmsCreate
  rw [if_pos h, lookupKV_append, lookupKV_removeKV_self]
  simp [lookupKV]

theorem scheduleAlarm_nonpos (A : Alarms) (t i : Int) (h : ¬0 < i) :
    scheduleAlarm A t i = removeKV A (getAlarmName t) := by
  unfold scheduleAlarm
  rw [if_neg h]

theorem scheduleAlarm_lookup_other (A : Alarms) (t i : Int) (k : String)
    (hk : k ≠ getAlarmName t) :
    lookupKV (scheduleAlarm A t i) k = lookupKV A k := by
  unfold scheduleAlarm alarmsCreate
  by_cases h : 0 < i
  · rw [if_pos h, lookupKV_append, lookupKV_removeKV_other _ _ _ hk,
      lookupKV_removeKV_other _ _ _ hk]
    cases hl : lookupKV A k with
    | some v => rfl
    | none => simp [lookupKV, Ne.symm hk]
  · rw [if_neg h, lookupKV_removeKV_other _ _ _ hk]

theorem scheduleAlarm_count_self (A : Alarms) (t i : Int) :
    countKV (scheduleAlarm A t i) (getAlarmName t) ≤ 1 := by
  unfold scheduleAlarm alarmsCreate
  by_cases h : 0 < i
  · rw [if_pos h, countKV_append, countKV_removeKV_self]
    simp [countKV]
  · rw [if_neg h, countKV_removeKV_self]
    omega

theorem scheduleAlarm_count_other (A : Alarms) (t i : Int) (k : String)
    (hk : k ≠ getAlarmName t) :
    countKV (scheduleAlarm A t i) k = countKV A k := by
  unfold scheduleAlarm alarmsCreate
  by_cases h : 0 < i
  · rw [if_pos h, countKV_append, countKV_removeKV_other _ _ _ hk,
      countKV_removeKV_other _ _ _ hk]
    simp [countKV, Ne.symm hk]
  · rw [if_neg h, countKV_removeKV_other _ _ _ hk]

theorem applyTimerOp_count_le (A : Alarms) (op : TimerOp) (k : String)
    (h : countKV A k ≤ 1) : countKV (applyTimerOp A op) k ≤ 1 := by
  cases op with
  | schedule t i =>
    by_cases hk : k = getAlarmName t
    · rw [hk]
      unfold applyTimerOp
      exact scheduleAlarm_count_self A t i
    · unfold applyTimerOp
      rw [scheduleAlarm_count_other A t i k hk]
      exact h
  | cancel t =>
    unfold applyTimerOp clearAlarm
    by_cases hk : k = getAlarmName t
    · rw [hk, countKV_removeKV_self]
      omega
    · rw [countKV_removeKV_other _ _ _ hk]
      exact h

/-! ## Reconciliation fold lemmas -/

theorem reconcileFold_alarms (o : List Int) (L : List (Int × Int)) :
    ∀ st : SysState,
      (L.foldl (reconcileStep o) st).alarms = L.foldl (armStep o) st.alarms := by
  induction L with
  | nil => intro st; rfl
  | cons e rest ih =>
    intro st
    rw [List.foldl_cons, List.foldl_cons, ih]
    have hstep : (reconcileStep o st e).alarms = armStep o st.alarms e := by
      unfold reconcileStep armStep
      by_cases h : o.contains e.1 ∧ 0 < e.2
      · rw [if_pos h, if_pos h]
      · rw [if_neg h, if_neg h]
    rw [hstep]

theorem reconcileFold_storage (o : List Int) (L : List (Int × Int)) :
    ∀ st : SysState,
      (L.foldl (reconcileStep o) st).storage = L.foldl (pruneStep o) st.storage := by
  induction L with
  | nil => intro st; rfl
  | cons e rest ih =>
    intro st
    rw [List.foldl_cons, List.foldl_cons, ih]
    have hstep : (reconcileStep o st e).storage = pruneStep o st.storage e := by
      unfold reconcileStep pruneStep
      by_cases h : o.contains e.1 ∧ 0 < e.2
      · rw [if_pos h, if_pos h]
      · rw [if_neg h, if_neg h]
    rw [hstep]

theorem pruneStep_some (o : List Int) (S : Storage) (e : Int × Int) (k : String)
    (v : StoredValue) (h : lookupKV (pruneStep o S e) k = some v) :
    lookupKV S k = some v := by
  unfold pruneStep at h
  by_cases hc : o.contains e.1 ∧ 0 < e.2
  · rw [if_pos hc] at h; exact h
  · rw [if_neg hc] at h
    unfold removeInterval at h
    by_cases hk : k = getKey e.1
    · rw [hk, lookupKV_removeKV_self] at h
      exact absurd h (by simp)
    · rw [lookupKV_removeKV_other _ _ _ hk] at h
      exact h

theorem pruneFold_some (o : List Int) (L : List (Int × Int)) :
    ∀ (S : Storage) (k : String) (v : StoredValue),
      lookupKV (L.foldl (pruneStep o) S) k = some v → lookupKV S k = some v := by
  induction L with
  | nil => intro S k v h; exact h
  | cons e rest ih =>
    intro S k v h
    rw [List.foldl_cons] at h
    exact pruneStep_some o S e k v (ih _ _ _ h)

theorem pruneStep_none (o : List Int) (S : Storage) (e : Int × Int) (k : String)
    (h : lookupKV S k = none) : lookupKV (pruneStep o S e) k = none := by
  unfold pruneStep
  by_cases hc : o.contains e.1 ∧ 0 < e.2
  · rw [if_pos hc]; exact h
  · rw [if_neg hc]
    unfold removeInterval
    exact lookupKV_removeKV_none _ _ _ h

theorem pruneFold_none (o : List Int) (L : List (Int × Int)) :
    ∀ (S : Storage) (k : String), lookupKV S k = none →
      lookupKV (L.foldl (pruneStep o) S) k = none := by
  induction L with
  | nil => intro S k h; exact h
  | cons e rest ih =>
    intro S k h
    rw [List.foldl_cons]
    exact ih _ _ (pruneStep_none o S e k h)

theorem pruneFold_deleted (o : List Int) (L1 L2 : List (Int × Int)) (t i : Int)
    (hc : o.contains t = false) (S : Storage) :
    lookupKV ((L1 ++ (t, i) :: L2).foldl (pruneStep o) S) (getKey t) = none := by
  rw [List.foldl_append, List.foldl_cons]
  apply pruneFold_none
  have hcond : ¬(o.contains (t, i).1 ∧ 0 < (t, i).2) := by
    intro hh
    rw [show (t, i).1 = t from rfl, hc] at hh
    exact absurd hh.1 (by simp)
  unfold pruneStep
  rw [if_neg hcond]
  unfold removeInterval
  exact lookupKV_removeKV_self _ _

theorem armFold_preserve (o : List Int) (t : Int) (L : List (Int × Int)) :
    ∀ A : Alarms, (∀ e ∈ L, e.1 ≠ t) →
      lookupKV (L.foldl (armStep o) A) (getAlarmName t) =
        lookupKV A (getAlarmName t) := by
  induction L with
  | nil => intro A _; rfl
  | cons e rest ih =>
    intro A hne
    rw [List.foldl_cons, ih _ (fun e2 he2 => hne e2 (List.mem_cons_of_mem e he2))]
    unfold armStep
    by_cases hc : o.contains e.1 ∧ 0 < e.2
    · rw [if_pos hc]
      refine scheduleAlarm_lookup_other A e.1 e.2 _ ?_
      intro heq
      exact hne e (List.mem_cons_self e rest) (getAlarmName_injective heq.symm)
    · rw [if_neg hc]

theorem armFold_armed (o : List Int) (L1 L2 : List (Int × Int)) (t i : Int)
    (hc : o.contains t = true) (hi : 0 < i) (hne : ∀ e ∈ L2, e.1 ≠ t)
    (A : Alarms) :
    lookupKV ((L1 ++ (t, i) :: L2).foldl (armStep o) A) (getAlarmName t) =
      some { delayInMinutes := i, periodInMinutes := i } := by
  rw [List.foldl_append, List.foldl_cons, armFold_preserve o t L2 _ hne]
  have hcond : o.contains (t, i).1 ∧ 0 < (t, i).2 := ⟨by rw [show (t, i).1 = t from rfl, hc], hi⟩
  unfold armStep
  rw [if_pos hcond]
  exact scheduleAlarm_lookup_self _ t i hi

theorem armFold_lookup_inv (o : List Int) (k : String) (info : AlarmInfo)
    (L : List (Int × Int)) :
    ∀ A : Alarms, lookupKV (L.foldl (armStep o) A) k = some info →
      lookupKV A k = some info ∨
      ∃ e, e ∈ L ∧ k = getAlarmName e.1 ∧ o.contains e.1 = true ∧ 0 < e.2 ∧
        info = { delayInMinutes := e.2, periodInMinutes := e.2 } := by
  induction L with
  | nil => intro A h; exact Or.inl h
  | cons e rest ih =>
    intro A h
    rw [List.foldl_cons] at h
    rcases ih _ h with hbase | ⟨e2, he2, hk, hco, hpos, hinfo⟩
    · unfold armStep at hbase
      by_cases hc : o.contains e.1 ∧ 0 < e.2
      · rw [if_pos hc] at hbase
        by_cases hk : k = getAlarmName e.1
        · rw [hk, scheduleAlarm_lookup_self _ _ _ hc.2] at hbase
          injection hbase with hinfo
          exact Or.inr ⟨e, List.mem_cons_self e rest, hk, hc.1, hc.2, hinfo.symm⟩
        · rw [scheduleAlarm_lookup_other _ _ _ _ hk] at hbase
          exact Or.inl hbase
      · rw [if_neg hc] at hbase
        exact Or.inl hbase
    · exact Or.inr ⟨e2, List.mem_cons_of_mem e he2, hk, hco, hpos, hinfo⟩

/-! ## Claim theorems -/

/-- Claim C1, counterexample: handling a setTimer request with interval 0 on
an empty store leaves a persisted entry `interval 0` under the derived key —
`handleSetTimer` always calls `saveInterval`, it never deletes. -/
theorem c1_counterexample :
    lookupKV (handleSetTimer { storage := [], alarms := [] }
        (some 1) (some 0)).2.storage (getKey 1) = some (StoredValue.entry 0) := by
  decide

/-- Claim C1 (amended): a setTimer request with interval 0 writes the entry
object with interval 0 under the derived key (it is written, not deleted);
such a non-positive entry reads back as 0 through `getInterval` and, after
any sequence of setTimer requests, never appears in `getAllIntervals`. -/
theorem c1_set_timer_zero_writes_entry (st : SysState) (t : Int) (h : t ≠ 0) :
    (lookupKV (handleSetTimer st (some t) (some 0)).2.storage (getKey t) =
        some (StoredValue.entry 0) ∧
      getInterval (handleSetTimer st (some t) (some 0)).2.storage t = 0) ∧
    ∀ (reqs : List (Option Int × Option Int)) (e : Int × Int),
      e ∈ getAllIntervals (applySetTimers reqs st).storage → 0 < e.2 := by
  have hset : (handleSetTimer st (some t) (some 0)).2.storage =
      setKV st.storage (getKey t) (StoredValue.entry 0) := by
    simp only [handleSetTimer]
    rw [if_neg h]
    rfl
  refine ⟨⟨?_, ?_⟩, ?_⟩
  · rw [hset, lookupKV_setKV_self]
  · unfold getInterval
    rw [hset, lookupKV_setKV_self]
  · intro reqs e he
    exact getAllIntervals_pos _ e he

/-- Claim C1, witness of the amended statement at tab id 2 on the empty
store. -/
theorem c1_witness :
    lookupKV (handleSetTimer { storage := [], alarms := [] }
        (some 2) (some 0)).2.storage (getKey 2) = some (StoredValue.entry 0) ∧
    getInterval (handleSetTimer { storage := [], alarms := [] }
        (some 2) (some 0)).2.storage 2 = 0 := by
  have h := c1_set_timer_zero_writes_entry { storage := [], alarms := [] } 2 (by decide)
  exact ⟨h.1.1, h.1.2⟩

/-- Claim C3: when the alarm named for a scheduled tab fires and the reload
invocation throws, the failure handler cancels the alarm and removes the
schedule entry: afterwards `getInterval` returns 0 and no alarm named for
that tab remains. -/
theorem c3_reload_failure_cleanup (st : SysState) (t : Int) :
    getInterval (onAlarmFired st (getAlarmName t) true).storage t = 0 ∧
    lookupKV (onAlarmFired st (getAlarmName t) true).alarms (getAlarmName t) = none ∧
    countKV (onAlarmFired st (getAlarmName t) true).alarms (getAlarmName t) = 0 := by
  have hred : onAlarmFired st (getAlarmName t) true =
      { storage := removeInterval st.storage t,
        alarms := (clearAlarm st.alarms t).2 } := by
    unfold onAlarmFired
    rw [parseTabId_getAlarmName t]
    rfl
  rw [hred]
  refine ⟨?_, ?_, ?_⟩
  · unfold getInterval removeInterval
    rw [lookupKV_removeKV_self]
  · unfold clearAlarm
    exact lookupKV_removeKV_self _ _
  · unfold clearAlarm
    exact countKV_removeKV_self _ _

/-- Claim C4: after any finite sequence of schedule/cancel operations,
starting from a registry holding at most one alarm named for the tab, the
registry still holds at most one alarm named for that tab (`schedule`
clears before conditionally re-arming, `cancel` only removes). -/
theorem c4_at_most_one_timer (A : Alarms) (ops : List TimerOp) (t : Int)
    (h : countKV A (getAlarmName t) ≤ 1) :
    countKV (ops.foldl applyTimerOp A) (getAlarmName t) ≤ 1 := by
  induction ops generalizing A with
  | nil => exact h
  | cons op rest ih =>
    rw [List.foldl_cons]
    exact ih _ (applyTimerOp_count_le A op _ h)

/-- Claim C4, witness: a concrete schedule/schedule/cancel run from the
empty registry keeps at most one alarm named for tab 1. -/
theorem c4_witness :
    countKV (([TimerOp.schedule 1 5, TimerOp.schedule 1 3,
      TimerOp.cancel 2].foldl applyTimerOp ([] : Alarms))) (getAlarmName 1) ≤ 1 :=
  c4_at_most_one_timer [] _ 1 (by decide)

/-- Claim C9, counterexample: the empty url is reported restricted although
it starts with none of the restricted prefixes (the `!url` early return). -/
theorem c9_counterexample :
    isRestrictedUrl "" = true ∧
    RESTRICTED_URL_PREFIXES.all (fun p => !jsStartsWith "" p) = true := by
  decide

/-- Claim C9 (amended): `isRestrictedUrl` returns true iff the url is empty
(falsy) or starts with one of the fixed restricted prefixes; the four
example urls behave as the claim states. -/
theorem c9_isRestrictedUrl_characterization :
    (∀ url : String, isRestrictedUrl url = true ↔
      (url = "" ∨ ∃ p, p ∈ RESTRICTED_URL_PREFIXES ∧ jsStartsWith url p = true)) ∧
    isRestrictedUrl "chrome://extensions" = true ∧
    isRestrictedUrl "file:///x" = true ∧
    isRestrictedUrl "about:blank" = true ∧
    isRestrictedUrl "https://example.com" = false := by
  refine ⟨?_, by decide, by decide, by decide, by decide⟩
  intro url
  unfold isRestrictedUrl
  by_cases h : url = ""
  · simp [h]
  · rw [if_neg h, List.any_eq_true]
    simp [h]

/-- Claim C10: a setTimer or getTimer request whose tabId is absent or 0
(JavaScript-falsy) is rejected with a failure response and an error message,
and the store and registry are left untouched. -/
theorem c10_falsy_tabId_rejected (st : SysState) (tabId interval : Option Int)
    (h : jsFalsyInt tabId = true) :
    (handleSetTimer st tabId interval).1.success = false ∧
    (handleSetTimer st tabId interval).1.error = some "Missing tabId or interval" ∧
    (handleSetTimer st tabId interval).2 = st ∧
    (handleGetTimer st tabId).1.success = false ∧
    (handleGetTimer st tabId).1.error = some "Missing tabId" ∧
    (handleGetTimer st tabId).2 = st := by
  cases tabId with
  | none =>
    cases interval <;> exact ⟨rfl, rfl, rfl, rfl, rfl, rfl⟩
  | some n =>
    have hn : n = 0 := by simpa [jsFalsyInt] using h
    subst hn
    cases interval with
    | none => exact ⟨rfl, rfl, rfl, by simp [handleGetTimer], by simp [handleGetTimer],
        by simp [handleGetTimer]⟩
    | some i => exact ⟨by simp [handleSetTimer], by simp [handleSetTimer],
        by simp [handleSetTimer], by simp [handleGetTimer], by simp [handleGetTimer],
        by simp [handleGetTimer]⟩

/-- Claim C10, witness at tabId 0 with a well-formed interval. -/
theorem c10_witness :
    (handleSetTimer { storage := [], alarms := [] } (some 0) (some 5)).1.success = false ∧
    (handleSetTimer { storage := [], alarms := [] } (some 0) (some 5)).2 =
      { storage := [], alarms := [] } ∧
    (handleGetTimer { storage := [], alarms := [] } (some 0)).1.success = false := by
  have h := c10_falsy_tabId_rejected { storage := [], alarms := [] }
    (some 0) (some 5) (by decide)
  exact ⟨h.1, h.2.2.1, h.2.2.2.1⟩

/-- Claim C2: from a restart state (no live alarms) with a well-formed
store, reconciliation arms an alarm with the stored interval as both delay
and period for exactly the listed entries whose tab is open, deletes the
store entry of every listed entry whose tab is not open, and never changes
the stored value of any surviving key. -/
theorem c2_reconciliation (openIds : List Int) (st : SysState)
    (hA : st.alarms = [])
    (hnd : (st.storage.map Prod.fst).Nodup)
    (hca : CanonicalKeys st.storage) :
    (∀ t i, (t, i) ∈ getAllIntervals st.storage → openIds.contains t = true →
        lookupKV (restoreAlarmsFromStorage openIds st).alarms (getAlarmName t) =
          some { delayInMinutes := i, periodInMinutes := i }) ∧
    (∀ name info,
        lookupKV (restoreAlarmsFromStorage openIds st).alarms name = some info →
        ∃ t i, name = getAlarmName t ∧ (t, i) ∈ getAllIntervals st.storage ∧
          openIds.contains t = true ∧
          info = { delayInMinutes := i, periodInMinutes := i }) ∧
    (∀ t i, (t, i) ∈ getAllIntervals st.storage → openIds.contains t = false →
        lookupKV (restoreAlarmsFromStorage openIds st).storage (getKey t) = none) ∧
    (∀ k v, lookupKV (restoreAlarmsFromStorage openIds st).storage k = some v →
        lookupKV st.storage k = some v) := by
  have halarms : (restoreAlarmsFromStorage openIds st).alarms =
      (getAllIntervals st.storage).foldl (armStep openIds) st.alarms :=
    reconcileFold_alarms openIds _ st
  have hstore : (restoreAlarmsFromStorage openIds st).storage =
      (getAllIntervals st.storage).foldl (pruneStep openIds) st.storage :=
    reconcileFold_storage openIds _ st
  have hnodup := getAllIntervals_tabIds_nodup st.storage hnd hca
  refine ⟨?_, ?_, ?_, ?_⟩
  · intro t i hmem hopen
    obtain ⟨L1, L2, hsplit⟩ := List.append_of_mem hmem
    rw [halarms, hA, hsplit]
    refine armFold_armed openIds L1 L2 t i hopen
      (getAllIntervals_pos _ _ hmem) ?_ []
    intro e he heq
    rw [hsplit, List.map_append, List.map_cons] at hnodup
    have h2 := (List.nodup_append.mp hnodup).2.1
    rw [List.nodup_cons] at h2
    exact h2.1 (List.mem_map.mpr ⟨e, he, heq⟩)
  · intro name info h
    rw [halarms, hA] at h
    rcases armFold_lookup_inv openIds name info _ [] h with hbase |
      ⟨e, he, hk, hco, _, hinfo⟩
    · exact absurd hbase (by simp [lookupKV])
    · exact ⟨e.1, e.2, hk, he, hco, hinfo⟩
  · intro t i hmem hclosed
    obtain ⟨L1, L2, hsplit⟩ := List.append_of_mem hmem
    rw [hstore, hsplit]
    exact pruneFold_deleted openIds L1 L2 t i hclosed st.storage
  · intro k v h
    rw [hstore] at h
    exact pruneFold_some openIds _ st.storage k v h

/-- Claim C2, witness: with stored entries for tabs 1, 2, 3 (intervals 5, 7,
9) and open set including 1 and 3 but not 2, reconciliation arms the alarm for
tab 1 with delay and period 5 and deletes the entry of tab 2. -/
theorem c2_witness :
    lookupKV (restoreAlarmsFromStorage [1, 3]
        { storage := [(getKey 1, StoredValue.entry 5), (getKey 2, StoredValue.entry 7),
            (getKey 3, StoredValue.entry 9)], alarms := [] }).alarms
      (getAlarmName 1) = some { delayInMinutes := 5, periodInMinutes := 5 } ∧
    lookupKV (restoreAlarmsFromStorage [1, 3]
        { storage := [(getKey 1, StoredValue.entry 5), (getKey 2, StoredValue.entry 7),
            (getKey 3, StoredValue.entry 9)], alarms := [] }).storage
      (getKey 2) = none := by
  have h := c2_reconciliation [1, 3]
    { storage := [(getKey 1, StoredValue.entry 5), (getKey 2, StoredValue.entry 7),
        (getKey 3, StoredValue.entry 9)], alarms := [] }
    rfl (by decide)
    (by
      intro p hp hpre
      simp only [List.mem_cons, List.not_mem_nil, or_false] at hp
      rcases hp with h | h | h
      · exact ⟨1, by rw [h]⟩
      · exact ⟨2, by rw [h]⟩
      · exact ⟨3, by rw [h]⟩)
  exact ⟨h.1 1 5 (by decide) (by decide), h.2.2.1 2 7 (by decide) (by decide)⟩

/-- Claim C5, counterexample: with listed entries for tabs 1 (open, whose
schedule call throws) and 2 (an orphan), the single try/catch around the
whole loop makes the failure abort the pass: the orphan entry of tab 2 is
still present afterwards, unreconciled. -/
theorem c5_counterexample :
    lookupKV (restoreWithFailures [1] (fun t => t == 1)
        { storage := [(getKey 1, StoredValue.entry 5), (getKey 2, StoredValue.entry 7)],
          alarms := [] }).storage (getKey 2) = some (StoredValue.entry 7) ∧
    ([1] : List Int).contains 2 = false := by
  decide

/-- Claim C5 (amended): a failure while processing one listed entry aborts
reconciliation of all remaining entries in that pass — the result is as if
only the clean prefix before the failing entry had been processed (the
exception is caught at loop level, so nothing propagates further). -/
theorem c5_failure_aborts_pass (openIds : List Int) (fails : Int → Bool)
    (st : SysState) (L1 L2 : List (Int × Int)) (t i : Int)
    (hsplit : getAllIntervals st.storage = L1 ++ (t, i) :: L2)
    (hclean : ∀ e ∈ L1, (openIds.contains e.1 ∧ 0 < e.2) → fails e.1 = false)
    (hopen : openIds.contains t = true) (hi : 0 < i) (hf : fails t = true) :
    restoreWithFailures openIds fails st = restoreGo openIds fails L1 st := by
  unfold restoreWithFailures
  rw [hsplit]
  clear hsplit
  induction L1 generalizing st with
  | nil =>
    show restoreGo openIds fails ((t, i) :: L2) st = st
    unfold restoreGo
    have hcond : openIds.contains (t, i).1 ∧ 0 < (t, i).2 := ⟨by exact hopen, hi⟩
    rw [if_pos hcond, if_pos (by exact hf)]
  | cons e rest ih =>
    have he := hclean e (List.mem_cons_self e rest)
    have hcleanr : ∀ e2 ∈ rest, (openIds.contains e2.1 ∧ 0 < e2.2) → fails e2.1 = false :=
      fun e2 he2 => hclean e2 (List.mem_cons_of_mem e he2)
    simp only [List.cons_append, restoreGo]
    by_cases hc : openIds.contains e.1 ∧ 0 < e.2
    · have hne : ¬(fails e.1 = true) := by rw [he hc]; simp
      rw [if_pos hc, if_pos hc, if_neg hne, if_neg hne]
      exact ih _ hcleanr
    · rw [if_neg hc, if_neg hc]
      exact ih _ hcleanr

/-- Claim C5, witness: the failing entry for tab 1 is first in the list, so
the pass returns the state unchanged and the orphan for tab 2 survives. -/
theorem c5_witness :
    restoreWithFailures [1] (fun t => t == 1)
      { storage := [(getKey 1, StoredValue.entry 5), (getKey 2, StoredValue.entry 7)],
        alarms := [] } =
    { storage := [(getKey 1, StoredValue.entry 5), (getKey 2, StoredValue.entry 7)],
      alarms := [] } := by
  have h := c5_failure_aborts_pass [1] (fun t => t == 1)
    { storage := [(getKey 1, StoredValue.entry 5), (getKey 2, StoredValue.entry 7)],
      alarms := [] }
    [] [(2, 7)] 1 5 (by decide)
    (by intro e he hx; exact absurd he (List.not_mem_nil e))
    (by decide) (by decide) (by decide)
  exact h

/-- Claim C6: exporting the whole document and importing it back (clear,
then set every binding) restores the document exactly, so the schedule
entries and the options record are observably unchanged. -/
theorem c6_export_import_round_trip (s : Storage)
    (hnd : (s.map Prod.fst).Nodup) :
    importAll (exportAll s) s = s ∧
    getAllIntervals (importAll (exportAll s) s) = getAllIntervals s ∧
    getOptions (importAll (exportAll s) s) = getOptions s := by
  have hsa : ∀ (data acc : Storage), ((acc ++ data).map Prod.fst).Nodup →
      storageSetAll acc data = acc ++ data := by
    intro data
    induction data with
    | nil => intro acc _; simp [storageSetAll]
    | cons q rest ih =>
      intro acc h
      unfold storageSetAll at *
      rw [List.foldl_cons]
      have hq : lookupKV acc q.1 = none := by
        apply lookupKV_eq_none_of_not_mem_keys
        intro hmem
        rw [List.map_append] at h
        exact (List.nodup_append.mp h).2.2 hmem (by simp)
      rw [setKV_of_lookup_none _ _ _ hq]
      have happ := ih (acc ++ [q]) (by
        rw [List.append_assoc]
        simpa using h)
      rw [happ, List.append_assoc]
      simp
  have hmain : importAll (exportAll s) s = s := by
    unfold importAll exportAll storageClearAll
    have := hsa s [] (by simpa using hnd)
    simpa using this
  exact ⟨hmain, by rw [hmain], by rw [hmain]⟩

/-- Claim C6, witness on a document holding a schedule entry, the options
record and an opaque foreign key. -/
theorem c6_witness :
    importAll (exportAll
      [(getKey 1, StoredValue.entry 5),
       ( OPTIONS_KEY, StoredValue.opts
          { defaultInterval := some 10, bypassCache := some true, showBadge := some false }),
       ("future-key", StoredValue.other "opaque")])
      [(getKey 1, StoredValue.entry 5),
       ( OPTIONS_KEY, StoredValue.opts
          { defaultInterval := some 10, bypassCache := some true, showBadge := some false }),
       ("future-key", StoredValue.other "opaque")] =
      [(getKey 1, StoredValue.entry 5),
       ( OPTIONS_KEY, StoredValue.opts
          { defaultInterval := some 10, bypassCache := some true, showBadge := some false }),
       ("future-key", StoredValue.other "opaque")] :=
  (c6_export_import_round_trip _ (by decide)).1

/-- Claim C7: saving a partial options object overwrites exactly the fields
present in the partial and keeps every other field at its prior observable
value, and reading options when none are stored yields the defaults rather
than failing. -/
theorem c7_saveOptions_merge (s : Storage) (p : PartialOptions) :
    getOptions (saveOptions s p) = spreadOver (getOptions s) p ∧
    (lookupKV s OPTIONS_KEY = none → getOptions s = DEFAULT_OPTIONS) := by
  constructor
  · have hkey : ∀ (base o : OptionsRecord), spreadOver base (toStored o) = o := by
      intro base o; cases o; rfl
    unfold getOptions storedOptions saveOptions
    rw [lookupKV_setKV_self]
    exact hkey _ _
  · intro h
    unfold getOptions storedOptions
    rw [h]
    rfl

/-- Claim C7, witness: from stored options (10, true, false), saving a
partial update of only the default interval to 20 yields (20, true, false);
reading the empty store yields the defaults. -/
theorem c7_witness :
    getOptions (saveOptions
      [( OPTIONS_KEY, StoredValue.opts
          { defaultInterval := some 10, bypassCache := some true, showBadge := some false })]
      { defaultInterval := some 20, bypassCache := none, showBadge := none }) =
      { defaultInterval := 20, bypassCache := true, showBadge := false } ∧
    getOptions [] = DEFAULT_OPTIONS := by
  have h1 := c7_saveOptions_merge
    [( OPTIONS_KEY, StoredValue.opts
        { defaultInterval := some 10, bypassCache := some true, showBadge := some false })]
    { defaultInterval := some 20, bypassCache := none, showBadge := none }
  have h2 := c7_saveOptions_merge []
    { defaultInterval := none, bypassCache := none, showBadge := none }
  refine ⟨?_, h2.2 rfl⟩
  rw [h1.1]
  decide

/-- Claim C8, counterexample: the string with the correct prefix and suffix
"12abc" is not the derived name of any tab (in particular not of tab 12,
the only candidate its parse admits), yet `parseTabId` returns 12 instead
of the claimed null — `parseInt` accepts a digit run with trailing garbage. -/
theorem c8_counterexample :
    parseTabId "tab-reloader-alarm-12abc" = some 12 ∧
    getAlarmName 12 ≠ "tab-reloader-alarm-12abc" := by
  decide

/-- Claim C8 (amended): the name mapping is total, deterministic and
reversible — parsing the derived name of any integer tab id returns that
tab id — and parsing a string with the wrong prefix, or whose suffix does
not start with a digit run, yields null; but a suffix that begins with
digits parses to that leading number even with trailing garbage. -/
theorem c8_name_mapping :
    (∀ t : Int, parseTabId (getAlarmName t) = some t) ∧
    (∀ s : String, jsStartsWith s ALARM_NAME_PREFIX = false → parseTabId s = none) ∧
    parseTabId "tab-reloader-alarm-abc" = none ∧
    parseTabId "tab-reloader-alarm-12abc" = some 12 := by
  refine ⟨parseTabId_getAlarmName, ?_, by decide, by decide⟩
  intro s h
  unfold parseTabId
  rw [h]
  simp

/-- Claim C8, witness: a wrong-prefix string parses to null and a round
trip at tab id 7 returns 7. -/
theorem c8_witness :
    parseTabId "zzz" = none ∧ parseTabId (getAlarmName 7) = some 7 := by
  have h := c8_name_mapping
  exact ⟨h.2.1 "zzz" (by decide), h.1 7⟩
